import Mathlib

/-!
Verification development for the transient ring-effect lifecycle and pooling
engine of the ThreeBoiler repository (src/effects/ShockRing.ts,
src/effects/IcoRing.ts, driven from src/main.ts).

The numeric code is embedded shallowly: JavaScript numbers are modelled as
exact rationals wherever only field arithmetic and comparisons occur, and as
real numbers where `Math.pow` with an arbitrary real exponent is involved
(the growth curves, via `Real.rpow`).  Stateful classes become Lean
structures with explicit state-passing update functions; array mutation
loops become structural recursions that mirror the source's iteration order
(the managers iterate their `pending` and `rings` arrays backwards,
splicing in place, so same-tick processing runs from the newest array entry
to the oldest).
-/

namespace ThreeBoiler

/-- THREE.MathUtils.clamp(value, min, max) = Math.max(min, Math.min(max, value)),
over rationals. -/
def clampQ (x lo hi : ℚ) : ℚ := max lo (min hi x)

/-- THREE.MathUtils.lerp(x, y, t) = x + (y - x) * t, over rationals. -/
def lerpQ (x y t : ℚ) : ℚ := x + (y - x) * t

/-- ShockRing.update lines 234-239: the fade value written to
`this.uniforms.fade.value` as a function of the constructor-clamped
`fadeStart`/`fadeEnd` fields and the life fraction `t`.
Source:
  const fadeEnd = Math.max(fadeStart + 0.001, this.fadeEnd);
  const denom = Math.max(1e-5, fadeEnd - fadeStart);
  const fadeT = t <= fadeStart ? 1.0 : (t >= fadeEnd ? 0.0 : 1.0 - (t - fadeStart) / denom);
  this.uniforms.fade.value = Math.max(0, Math.min(1, fadeT)); -/
def shockFade (fadeStart fadeEnd t : ℚ) : ℚ :=
  let fadeEndF := max (fadeStart + 1/1000) fadeEnd
  let denom := max (1/100000) (fadeEndF - fadeStart)
  let fadeT : ℚ := if t ≤ fadeStart then 1 else if fadeEndF ≤ t then 0
    else 1 - (t - fadeStart) / denom
  max 0 (min 1 fadeT)

/-- getSharedIcoRingMaterial lines 97-99: the opacity node of the shared
instanced-icosahedron material, as a function of the life fraction
`tt = u_age / u_life` and the per-object fade window.
Source:
  const denom = max(float(1e-5), u_fadeEnd.sub(u_fadeStart));
  const fade = float(1).sub(clamp(u_age.div(u_life).sub(u_fadeStart).div(denom), 0, 1)); -/
def icoFade (fadeStart fadeEnd tt : ℚ) : ℚ :=
  let denom := max (1/100000) (fadeEnd - fadeStart)
  1 - clampQ ((tt - fadeStart) / denom) 0 1

/-- The effective fade end of the volumetric (ShockRing) variant:
`fadeEnd` forced to at least `fadeStart + 0.001`. -/
def shockFadeEndF (fadeStart fadeEnd : ℚ) : ℚ := max (fadeStart + 1/1000) fadeEnd

/-- The effective fade end of the swarm (IcoRing) variant: the fade reaches 0
exactly at `fadeStart + max 1e-5 (fadeEnd - fadeStart)`, i.e. `fadeEnd` forced
to at least `fadeStart + 1e-5`. -/
def icoFadeEndF (fadeStart fadeEnd : ℚ) : ℚ := fadeStart + max (1/100000) (fadeEnd - fadeStart)

/-! ### Real-valued growth curves (ShockRing.update lines 208-230)

`Math.pow` with an arbitrary real exponent is modelled by `Real.rpow`. -/

/-- THREE.MathUtils.clamp over the reals. -/
noncomputable def clampR (x lo hi : ℝ) : ℝ := max lo (min hi x)

/-- THREE.MathUtils.lerp over the reals. -/
noncomputable def lerpR (x y t : ℝ) : ℝ := x + (y - x) * t

/-- easeOutCubic, ShockRing.update lines 215 and 219:
`const ease = 1 - Math.pow(1 - u, 3)`. -/
noncomputable def easeOutCubic (u : ℝ) : ℝ := 1 - (1 - u) ^ (3:ℕ)

/-- The default growth curve, ShockRing.update lines 227-229 (the
`collapseThenGrow` branch inlines the same formula at lines 222-224):
  const tDelayed = Math.max(0, t - this.growthDelay) / Math.max(1e-5, 1 - this.growthDelay);
  const growthT = Math.pow(THREE.MathUtils.clamp(tDelayed, 0, 1), this.growthExponent);
  currentWorldR = THREE.MathUtils.lerp(this.startRadiusWorld, this.endRadiusWorld, growthT); -/
noncomputable def growthRadius (s e g d t : ℝ) : ℝ :=
  let tDelayed := max 0 (t - d) / max (1/100000) (1 - d)
  let growthT := (clampR tDelayed 0 1) ^ g
  lerpR s e growthT

/-- The collapse-then-grow radius curve, ShockRing.update lines 210-225.
Arguments: start radius `s`, end radius `e`, growth exponent `g`, growth
delay `d`, collapse scale `cs`, collapseAt `tc`, recoverAt `tr`, life
fraction `t`.  The third phase inlines the same formula as the default
growth curve (lines 222-224), based on the full-life `growthDelay` span. -/
noncomputable def ctgRadius (s e g d cs tc tr t : ℝ) : ℝ :=
  let tcm := min tc (19/20)
  let trm := max tr (tcm + 1/100)
  if t < tcm then
    lerpR s (s * cs) (easeOutCubic (t / max (1/100000) tcm))
  else if t < trm then
    lerpR (s * cs) s (easeOutCubic ((t - tcm) / max (1/100000) (trm - tcm)))
  else
    lerpR s e ((clampR (max 0 (t - d) / max (1/100000) (1 - d)) 0 1) ^ g)

/-- Modelled from the spec (section 4.1, collapse-then-grow phase 3): the
variant of the curve whose third phase is "re-based so delay/exponent apply
to the remaining span [recoverAt, 1]", i.e. the standard delayed growth
curve evaluated at the re-normalized fraction `(t - recoverAt)/(1 - recoverAt)`.
This definition follows the spec's words and exists only to be compared with
`ctgRadius`, which is the code's actual curve. -/
noncomputable def ctgRadiusSpecRebased (s e g d cs tc tr t : ℝ) : ℝ :=
  let tcm := min tc (19/20)
  let trm := max tr (tcm + 1/100)
  if t < tcm then
    lerpR s (s * cs) (easeOutCubic (t / max (1/100000) tcm))
  else if t < trm then
    lerpR (s * cs) s (easeOutCubic ((t - tcm) / max (1/100000) (trm - tcm)))
  else
    growthRadius s e g d ((t - trm) / (1 - trm))

/-- IcoRing jitter generator, constructor lines 188-190 and restart lines
310-312: the angular position of sub-instance `i` of `n`, with angle jitter
`aj` and a draw `r` from the uniform random source on [0,1):
  const ti = (i + Math.random() * angleJitter) / count;
  const ang = ti * Math.PI * 2; -/
noncomputable def icoAngle (i n : ℕ) (aj r : ℝ) : ℝ :=
  ((i + r * aj) / n) * Real.pi * 2

/-! ### Lifecycle state machines

The effect instances and their managers.  Rendering-only configuration
(color, thickness, opacity, raymarch steps, softness, noise scale, jitter
amplitudes, outline settings) is clamped once into GPU uniforms or instance
buffers and never feeds back into lifecycle control flow; those fields are
therefore not part of the lifecycle state.  The per-sub-instance jitter
attributes of the swarm variant are modelled separately by `icoAngle`. -/

/-- A 3-component rational vector, standing in for THREE.Vector3.  The
source normalizes camera-derived directions; directions handed to the model
are assumed already unit length (normalization needs square roots, which the
lifecycle never branches on). -/
structure Vec3 where
  x : ℚ
  y : ℚ
  z : ℚ
deriving DecidableEq

/-- Vector3.addScaledVector(v, k). -/
def Vec3.addScaled (p v : Vec3) (k : ℚ) : Vec3 :=
  ⟨p.x + v.x * k, p.y + v.y * k, p.z + v.z * k⟩

/-- The collaborator camera pose consumed at spawn time: world position and
forward direction (the world quaternion only ever acts on the +Z axis in
this code, producing the forward direction). -/
structure Camera where
  pos : Vec3
  forward : Vec3
deriving DecidableEq

/-- ShockRing growth mode (ShockRingOptions.growthMode). -/
inductive GrowthMode where
  | default
  | collapseThenGrow
deriving DecidableEq

/-- ShockRingOptions (ShockRing.ts lines 7-27), restricted to the fields
that affect lifecycle state. -/
structure ShockRingOptions where
  lifeSeconds : Option ℚ := none
  startRadius : Option ℚ := none
  endRadius : Option ℚ := none
  moveSpeed : Option ℚ := none
  spawnDistance : Option ℚ := none
  fadeStart : Option ℚ := none
  fadeEnd : Option ℚ := none
  growthExponent : Option ℚ := none
  growthDelay : Option ℚ := none
  growthMode : Option GrowthMode := none
  collapseAt : Option ℚ := none
  collapseScale : Option ℚ := none
  recoverAt : Option ℚ := none
deriving DecidableEq

/-- The mutable state of one ShockRing instance (ShockRing.ts lines 61-193).
`uFade` and `uRmajor` are the `fade` and `Rmajor` uniforms; `uRmajor` is
real-valued because the growth curves go through `Math.pow`. -/
structure ShockRingState where
  age : ℚ
  alive : Bool
  lifeSeconds : ℚ
  startRadiusWorld : ℚ
  endRadiusWorld : ℚ
  moveDir : Vec3
  moveSpeed : ℚ
  fadeStart : ℚ
  fadeEnd : ℚ
  growthExponent : ℚ
  growthDelay : ℚ
  growthMode : GrowthMode
  collapseAt : ℚ
  collapseScale : ℚ
  recoverAt : ℚ
  pos : Vec3
  meshScale : ℚ
  uFade : ℚ
  uRmajor : ℝ

/-- The ShockRing constructor (lines 93-193): option clamping, spawn pose in
front of the camera, unit-cube scale chosen from the end radius, initial
major-radius uniform. -/
noncomputable def mkShockRing (cam : Camera) (opts : ShockRingOptions) : ShockRingState :=
  let life := max (1/5) (opts.lifeSeconds.getD 2)
  let startR := max (1/20) (opts.startRadius.getD (4/5))
  let endR := max startR (opts.endRadius.getD 2)
  let scale := endR / (47/100)
  let spawnDist := max 0 (opts.spawnDistance.getD (3/2))
  { age := 0
    alive := true
    lifeSeconds := life
    startRadiusWorld := startR
    endRadiusWorld := endR
    moveDir := cam.forward
    moveSpeed := opts.moveSpeed.getD 6
    fadeStart := clampQ (opts.fadeStart.getD (1/2)) 0 1
    fadeEnd := clampQ (opts.fadeEnd.getD (4/5)) 0 1
    growthExponent := max (1/10) (opts.growthExponent.getD 6)
    growthDelay := clampQ (opts.growthDelay.getD (1/10)) 0 (19/20)
    growthMode := opts.growthMode.getD .default
    collapseAt := clampQ (opts.collapseAt.getD (2/25)) 0 (19/20)
    collapseScale := clampQ (opts.collapseScale.getD (1/20)) 0 1
    recoverAt := clampQ (max (opts.recoverAt.getD (1/5)) ((opts.collapseAt.getD (2/25)) + 1/100)) 0 (99/100)
    pos := cam.pos.addScaled cam.forward spawnDist
    meshScale := scale
    uFade := 1
    uRmajor := ((min (9/20) (startR / scale) : ℚ) : ℝ) }

/-- ShockRing.update (lines 200-244): early return when dead; advance age;
move along the spawn direction; derive the major radius from the growth
curve for the current mode; derive the fade; die when age reaches the
lifetime or the fade drops to ≤ 0.01. -/
noncomputable def shockRingUpdate (s : ShockRingState) (dt : ℚ) : ShockRingState :=
  if s.alive then
    let age := s.age + dt
    let t := min 1 (age / s.lifeSeconds)
    let pos := s.pos.addScaled s.moveDir (s.moveSpeed * dt)
    let currentWorldR : ℝ :=
      if s.growthMode = .collapseThenGrow then
        ctgRadius s.startRadiusWorld s.endRadiusWorld s.growthExponent
          s.growthDelay s.collapseScale s.collapseAt s.recoverAt t
      else
        growthRadius s.startRadiusWorld s.endRadiusWorld s.growthExponent
          s.growthDelay t
    let normalizedR : ℝ := min (47/100) (currentWorldR / (s.meshScale : ℝ))
    let fadeVal := shockFade s.fadeStart s.fadeEnd t
    let isDead : Bool := s.lifeSeconds ≤ age ∨ fadeVal ≤ 1/100
    { s with
      age := age
      pos := pos
      uRmajor := normalizedR
      uFade := fadeVal
      alive := !isDead }
  else s

/-- ShockRingManager default parameter table (lines 279-295), lifecycle
fields. -/
structure SRParams where
  lifeSeconds : ℚ := 36/5
  startRadius : ℚ := 21/5
  endRadius : ℚ := 12
  moveSpeed : ℚ := 0
  spawnDistance : ℚ := 3/2
  fadeStart : ℚ := 3/5
  fadeEnd : ℚ := 9/10
  growthExponent : ℚ := 5/2
  growthDelay : ℚ := 1/50
deriving DecidableEq

/-- ShockRingManager.spawn option merge (lines 302-320): every listed field
falls back to the manager parameter table.  Note the source forwards only
these fields: `growthMode`, `collapseAt`, `collapseScale` and `recoverAt`
are NOT forwarded by `spawn`, so they always take their constructor
defaults for manager-spawned rings. -/
def mergeShockOpts (p : SRParams) (o : ShockRingOptions) : ShockRingOptions :=
  { lifeSeconds := some (o.lifeSeconds.getD p.lifeSeconds)
    startRadius := some (o.startRadius.getD p.startRadius)
    endRadius := some (o.endRadius.getD p.endRadius)
    moveSpeed := some (o.moveSpeed.getD p.moveSpeed)
    spawnDistance := some (o.spawnDistance.getD p.spawnDistance)
    fadeStart := some (o.fadeStart.getD p.fadeStart)
    fadeEnd := some (o.fadeEnd.getD p.fadeEnd)
    growthExponent := some (o.growthExponent.getD p.growthExponent)
    growthDelay := some (o.growthDelay.getD p.growthDelay) }

/-- A pending delayed spawn request of the ShockRing manager (line 278). -/
structure SRPending where
  delay : ℚ
  opts : ShockRingOptions
deriving DecidableEq

/-- ShockRingManager state (lines 274-300): active rings and pending
requests (the scene and camera collaborators are constants). -/
structure SRMgr where
  rings : List ShockRingState
  pending : List SRPending
  params : SRParams
  camera : Camera

/-- ShockRingManager.spawn (lines 302-323): construct from merged options
and append to the active list. -/
noncomputable def shockSpawn (m : SRMgr) (opts : ShockRingOptions) : SRMgr :=
  { m with rings := m.rings ++ [mkShockRing m.camera (mergeShockOpts m.params opts)] }

/-- ShockRingManager.spawnAfter (lines 347-349). -/
def shockSpawnAfter (m : SRMgr) (delay : ℚ) (opts : ShockRingOptions) : SRMgr :=
  { m with pending := m.pending ++ [⟨delay, opts⟩] }

/-- The pending-request scan of ShockRingManager.update (lines 327-336).
The source iterates the array backwards, splicing fired entries; this
recursion mirrors that order: the tail of the list (higher indices) is
processed first, so among requests firing in the same tick the most
recently enqueued one spawns first. -/
noncomputable def shockPendingAux (dt : ℚ) :
    List SRPending → SRMgr → List SRPending × SRMgr
  | [], m => ([], m)
  | p :: rest, m =>
    let res := shockPendingAux dt rest m
    let d := p.delay - dt
    if d ≤ 0 then (res.1, shockSpawn res.2 p.opts)
    else (⟨d, p.opts⟩ :: res.1, res.2)

/-- The ring scan of ShockRingManager.update (lines 337-344): update each
ring, drop (dispose) the dead ones.  Backward iteration with splice keeps
the surviving rings in order. -/
noncomputable def shockRingsAux (dt : ℚ) : List ShockRingState → List ShockRingState
  | [] => []
  | r :: rest =>
    let surv := shockRingsAux dt rest
    let r' := shockRingUpdate r dt
    if r'.alive then r' :: surv else surv

/-- ShockRingManager.update (lines 325-345): pending scan, then ring
updates with same-tick removal of dead rings.  Rings spawned by the pending
scan are already on the list when the ring scan runs, so they receive their
first aging step in the same tick. -/
noncomputable def shockMgrUpdate (m : SRMgr) (dt : ℚ) : SRMgr :=
  let res := shockPendingAux dt m.pending m
  let m₁ := { res.2 with pending := res.1 }
  { m₁ with rings := shockRingsAux dt m₁.rings }

/-! ### Swarm variant (IcoRing.ts) -/

/-- IcoRingOptions (IcoRing.ts lines 5-31), restricted to the fields that
affect lifecycle state. -/
structure IcoRingOptions where
  lifeSeconds : Option ℚ := none
  moveSpeed : Option ℚ := none
  spawnDistance : Option ℚ := none
  count : Option ℕ := none
deriving DecidableEq

/-- The lifecycle state of one IcoRing instance (IcoRing.ts lines 113-134
and the per-object uniform record at lines 250-263).  `udLife` and `udAge`
are `mesh.userData.ico.lifeSeconds` / `.age`, which `restart` rewrites;
`lifeSeconds` is the read-only constructor field.  `capacity` is the size
of the instance buffer allocated at construction; `instanceCount` is the
sub-instance count rendered this life. -/
structure IcoRingState where
  age : ℚ
  alive : Bool
  visible : Bool
  lifeSeconds : ℚ
  udLife : ℚ
  udAge : ℚ
  pos : Vec3
  moveDir : Vec3
  moveSpeed : ℚ
  capacity : ℕ
  instanceCount : ℕ
deriving DecidableEq

/-- The IcoRing constructor (lines 136-265): option clamping, fixed-size
instance buffer (capacity = initial count), spawn pose from the camera. -/
def mkIcoRing (cam : Camera) (opts : IcoRingOptions) : IcoRingState :=
  let life := max (1/5) (opts.lifeSeconds.getD 4)
  let count := max 1 (opts.count.getD 80)
  let spawnDist := max 0 (opts.spawnDistance.getD (3/2))
  { age := 0
    alive := true
    visible := true
    lifeSeconds := life
    udLife := life
    udAge := 0
    pos := cam.pos.addScaled cam.forward spawnDist
    moveDir := cam.forward
    moveSpeed := opts.moveSpeed.getD 0
    capacity := count
    instanceCount := count }

/-- IcoRing.update (lines 272-290): early return when dead; advance age;
apply movement when moveSpeed is nonzero; mirror the age into the
per-object uniform record; die (and hide) once age reaches the effective
lifetime, which is `userData.ico.lifeSeconds` when that is truthy
(nonzero) and the constructor lifetime otherwise. -/
def icoRingUpdate (s : IcoRingState) (dt : ℚ) : IcoRingState :=
  if s.alive then
    let age := s.age + dt
    let pos := if s.moveSpeed ≠ 0 then s.pos.addScaled s.moveDir (s.moveSpeed * dt) else s.pos
    let life := if s.udLife ≠ 0 then s.udLife else s.lifeSeconds
    if life ≤ age then
      { s with age := age, udAge := age, pos := pos, alive := false, visible := false }
    else
      { s with age := age, udAge := age, pos := pos }
  else s

/-- IcoRing.restart (lines 297-372): the requested count is floored, forced
to at least 1 and clamped to the buffer capacity; the per-object lifetime
is rewritten; the pose is retaken from the camera; age resets and the ring
comes back alive and visible.  The buffer itself (capacity) is untouched. -/
def icoRestart (s : IcoRingState) (cam : Camera) (opts : IcoRingOptions) : IcoRingState :=
  let targetCount := max 1 (opts.count.getD s.instanceCount)
  let count := min s.capacity targetCount
  let spawnDist := max 0 (opts.spawnDistance.getD (3/2))
  { s with
    instanceCount := count
    udLife := max (1/5) (opts.lifeSeconds.getD s.udLife)
    udAge := 0
    moveSpeed := opts.moveSpeed.getD s.moveSpeed
    pos := cam.pos.addScaled cam.forward spawnDist
    moveDir := cam.forward
    age := 0
    alive := true
    visible := true }

/-- IcoRingsManager.release (lines 481-484): hide the ring and return it to
the pool (the push itself is done by the caller in this model). -/
def releaseRing (s : IcoRingState) : IcoRingState := { s with visible := false }

/-- IcoRingsManager default parameter table (lines 382-405), lifecycle
fields. -/
structure IcoParams where
  lifeSeconds : ℚ := 6
  moveSpeed : ℚ := 7/10
  spawnDistance : ℚ := 3/2
  count : ℕ := 84
deriving DecidableEq

/-- The manager-default option set used by the pool-exhaustion fallback in
acquire (lines 453-477). -/
def icoParamsOpts (p : IcoParams) : IcoRingOptions :=
  { lifeSeconds := some p.lifeSeconds
    moveSpeed := some p.moveSpeed
    spawnDistance := some p.spawnDistance
    count := some p.count }

/-- IcoRingsManager.spawn option merge (lines 489-512). -/
def mergeIcoOpts (p : IcoParams) (o : IcoRingOptions) : IcoRingOptions :=
  { lifeSeconds := some (o.lifeSeconds.getD p.lifeSeconds)
    moveSpeed := some (o.moveSpeed.getD p.moveSpeed)
    spawnDistance := some (o.spawnDistance.getD p.spawnDistance)
    count := some (o.count.getD p.count) }

/-- A pending delayed spawn request of the IcoRings manager (line 379). -/
structure IcoPending where
  delay : ℚ
  opts : IcoRingOptions
deriving DecidableEq

/-- IcoRingsManager state (lines 375-448): active rings, pending requests,
free pool.  `total` is a ghost counter of IcoRing constructions, used to
state the pool accounting invariant. -/
structure IcoMgr where
  rings : List IcoRingState
  pending : List IcoPending
  pool : List IcoRingState
  params : IcoParams
  camera : Camera
  total : ℕ

/-- IcoRingsManager.acquire (lines 450-479): pop the most recently pushed
pool entry; on exhaustion construct a fresh ring from the manager defaults
(incrementing the construction counter). -/
def icoAcquire (m : IcoMgr) : IcoRingState × IcoMgr :=
  match m.pool.getLast? with
  | some r => (r, { m with pool := m.pool.dropLast })
  | none => (mkIcoRing m.camera (icoParamsOpts m.params), { m with total := m.total + 1 })

/-- IcoRingsManager.spawn (lines 486-515): acquire, restart with merged
options, append to the active list. -/
def icoSpawn (m : IcoMgr) (opts : IcoRingOptions) : IcoMgr :=
  let res := icoAcquire m
  let ring := icoRestart res.1 res.2.camera (mergeIcoOpts res.2.params opts)
  { res.2 with rings := res.2.rings ++ [ring] }

/-- IcoRingsManager.spawnAfter (lines 538-540). -/
def icoSpawnAfter (m : IcoMgr) (delay : ℚ) (opts : IcoRingOptions) : IcoMgr :=
  { m with pending := m.pending ++ [⟨delay, opts⟩] }

/-- The pending-request scan of IcoRingsManager.update (lines 518-527),
mirroring the source's backward iteration exactly as `shockPendingAux`. -/
def icoPendingAux (dt : ℚ) :
    List IcoPending → IcoMgr → List IcoPending × IcoMgr
  | [], m => ([], m)
  | p :: rest, m =>
    let res := icoPendingAux dt rest m
    let d := p.delay - dt
    if d ≤ 0 then (res.1, icoSpawn res.2 p.opts)
    else (⟨d, p.opts⟩ :: res.1, res.2)

/-- The pending phase of IcoRingsManager.update as a manager transformer. -/
def icoPendingPass (m : IcoMgr) (dt : ℚ) : IcoMgr :=
  let res := icoPendingAux dt m.pending m
  { res.2 with pending := res.1 }

/-- The ring scan of IcoRingsManager.update (lines 528-535): update each
ring; dead rings are spliced out and released to the pool, in backward
iteration order (highest index released first).  Returns the surviving
rings and the pool pushes in push order. -/
def icoRingsAux (dt : ℚ) : List IcoRingState → List IcoRingState × List IcoRingState
  | [] => ([], [])
  | r :: rest =>
    let res := icoRingsAux dt rest
    let r' := icoRingUpdate r dt
    if r'.alive then (r' :: res.1, res.2) else (res.1, res.2 ++ [releaseRing r'])

/-- IcoRingsManager.update (lines 517-536). -/
def icoMgrUpdate (m : IcoMgr) (dt : ℚ) : IcoMgr :=
  let m₁ := icoPendingPass m dt
  let res := icoRingsAux dt m₁.rings
  { m₁ with rings := res.1, pool := m₁.pool ++ res.2 }

/-- Iterated manager updates (one call per frame). -/
def icoExecUpdates (m : IcoMgr) (dts : List ℚ) : IcoMgr :=
  dts.foldl icoMgrUpdate m

/-- The IcoRingsManager constructor (lines 407-448): prewarm six pooled
rings (hidden and dead), then acquire one and restart it as a short-lived
warm-up ring on the active list. -/
def icoMgrInit (cam : Camera) : IcoMgr :=
  let p : IcoParams := {}
  let pw : IcoRingOptions :=
    { lifeSeconds := some 1, moveSpeed := some 0,
      spawnDistance := some p.spawnDistance, count := some p.count }
  let pooled := { mkIcoRing cam pw with visible := false, alive := false }
  let m0 : IcoMgr :=
    { rings := [], pending := [],
      pool := [pooled, pooled, pooled, pooled, pooled, pooled],
      params := p, camera := cam, total := 6 }
  let res := icoAcquire m0
  let warm := icoRestart res.1 cam
    { lifeSeconds := some (1/20), count := some 1, moveSpeed := some 0 }
  { res.2 with rings := res.2.rings ++ [warm] }

/-- The external operations of the IcoRings manager. -/
inductive IcoOp where
  | spawn (opts : IcoRingOptions)
  | spawnAfter (delay : ℚ) (opts : IcoRingOptions)
  | update (dt : ℚ)

/-- Execute one manager operation. -/
def icoExec (m : IcoMgr) : IcoOp → IcoMgr
  | .spawn o => icoSpawn m o
  | .spawnAfter d o => icoSpawnAfter m d o
  | .update dt => icoMgrUpdate m dt

/-- Execute a sequence of manager operations. -/
def icoExecList (m : IcoMgr) : List IcoOp → IcoMgr
  | [] => m
  | op :: rest => icoExecList (icoExec m op) rest

/-! ### Operations bound in main.ts but not implemented in the sources

src/main.ts lines 251-253 bind `clearAll()` and `setMaxRings(n)` (GUI range
1..500) on the ring manager, but no manager in the sources implements them;
they are modelled from the spec below. -/

/-- Marking an instance Dead and hidden, as the spec's clearAll demands. -/
def killIcoRing (s : IcoRingState) : IcoRingState :=
  { s with alive := false, visible := false }

/-- Modelled from the spec: `clearAll()` (spec sections 5 and 6) — "force
every active instance to Dead/Pooled immediately", by "clearing the active
list and releasing all instances back to the pool".  The implementation is
missing from the sources (only its binding in main.ts line 251 exists).
Releases follow the backward order the update loop uses. -/
def icoClearAll (m : IcoMgr) : IcoMgr :=
  { m with rings := [], pool := m.pool ++ (m.rings.map killIcoRing).reverse }

/-- A manager extended with the configured maximum of simultaneously active
effects, for the spec-modelled `setMaxRings` (spec section 6). -/
structure CappedMgr where
  base : IcoMgr
  maxRings : ℕ

/-- Modelled from the spec: `setMaxRings(n)` (spec section 6) — "bounds how
many effects may be simultaneously active".  The implementation is missing
from the sources (only its binding in main.ts line 252, GUI range 1..500,
exists).  The bound is kept at the GUI minimum of 1 or above, and the
active list is trimmed oldest-first (releasing to the pool) when lowered. -/
def cappedSetMaxRings (m : CappedMgr) (n : ℕ) : CappedMgr :=
  let bound := max 1 n
  let dropCount := m.base.rings.length - bound
  { base := { m.base with
      rings := m.base.rings.drop dropCount,
      pool := m.base.pool ++ ((m.base.rings.take dropCount).map killIcoRing).reverse },
    maxRings := bound }

/-- Modelled from the spec: a spawn that would exceed the configured
maximum "must reject or drop the oldest effect" (spec section 6); this
model drops the oldest active effect, releasing it to the pool, before
spawning. -/
def cappedSpawn (m : CappedMgr) (opts : IcoRingOptions) : CappedMgr :=
  let b :=
    if m.maxRings ≤ m.base.rings.length then
      match m.base.rings with
      | [] => m.base
      | r :: rest => { m.base with rings := rest, pool := m.base.pool ++ [killIcoRing r] }
    else m.base
  { m with base := icoSpawn b opts }

/-- spawnAfter on the capped manager: queue only. -/
def cappedSpawnAfter (m : CappedMgr) (delay : ℚ) (opts : IcoRingOptions) : CappedMgr :=
  { m with base := icoSpawnAfter m.base delay opts }

/-- The pending scan of the capped manager's update: as the source scan,
but delayed spawns also go through the capped spawn. -/
def cappedPendingAux (dt : ℚ) :
    List IcoPending → CappedMgr → List IcoPending × CappedMgr
  | [], m => ([], m)
  | p :: rest, m =>
    let res := cappedPendingAux dt rest m
    let d := p.delay - dt
    if d ≤ 0 then (res.1, cappedSpawn res.2 p.opts)
    else (⟨d, p.opts⟩ :: res.1, res.2)

/-- update on the capped manager: capped pending scan, then the source's
ring scan. -/
def cappedUpdate (m : CappedMgr) (dt : ℚ) : CappedMgr :=
  let res := cappedPendingAux dt m.base.pending m
  let b₁ := { res.2.base with pending := res.1 }
  let rr := icoRingsAux dt b₁.rings
  { base := { b₁ with rings := rr.1, pool := b₁.pool ++ rr.2 },
    maxRings := res.2.maxRings }

/-- clearAll on the capped manager. -/
def cappedClearAll (m : CappedMgr) : CappedMgr :=
  { m with base := icoClearAll m.base }

/-- The external operations of the capped manager. -/
inductive CappedOp where
  | spawn (opts : IcoRingOptions)
  | spawnAfter (delay : ℚ) (opts : IcoRingOptions)
  | update (dt : ℚ)
  | setMaxRings (n : ℕ)
  | clearAll

/-- Execute one capped-manager operation. -/
def cappedExec (m : CappedMgr) : CappedOp → CappedMgr
  | .spawn o => cappedSpawn m o
  | .spawnAfter d o => cappedSpawnAfter m d o
  | .update dt => cappedUpdate m dt
  | .setMaxRings n => cappedSetMaxRings m n
  | .clearAll => cappedClearAll m

/-- Execute a sequence of capped-manager operations. -/
def cappedExecList (m : CappedMgr) : List CappedOp → CappedMgr
  | [] => m
  | op :: rest => cappedExecList (cappedExec m op) rest

/-- The capped manager at startup: the source manager constructor plus the
main.ts default maximum of 100 rings. -/
def cappedInit (cam : Camera) : CappedMgr :=
  { base := icoMgrInit cam, maxRings := 100 }

/-! ### Concrete example states used in witnesses and counterexamples -/

/-- A camera at the origin looking along +Z. -/
def cam0 : Camera := ⟨⟨0, 0, 0⟩, ⟨0, 0, 1⟩⟩

/-- A ShockRing manager with two pending requests (enqueued first with
lifeSeconds 1, then with lifeSeconds 2), both 0.05 s from firing. -/
def srMgrEx : SRMgr :=
  { rings := []
    pending := [⟨1/20, { lifeSeconds := some 1 }⟩, ⟨1/20, { lifeSeconds := some 2 }⟩]
    params := {}
    camera := cam0 }

/-- A freshly spawned ShockRing with lifeSeconds 1 and fade window
[0.5, 0.8]. -/
noncomputable def shockRingEx : ShockRingState :=
  mkShockRing cam0 { lifeSeconds := some 1, fadeStart := some (1/2), fadeEnd := some (4/5) }

/-- A freshly spawned IcoRing with lifeSeconds 1. -/
def icoRingW : IcoRingState := mkIcoRing cam0 { lifeSeconds := some 1 }

/-- An IcoRings manager holding exactly `icoRingW` active, nothing pending,
an empty pool. -/
def icoMgrW : IcoMgr :=
  { rings := [icoRingW], pending := [], pool := [], params := {},
    camera := cam0, total := 1 }

/-- A dead IcoRing instance. -/
def deadIcoEx : IcoRingState :=
  { age := 2, alive := false, visible := false, lifeSeconds := 1, udLife := 1,
    udAge := 2, pos := ⟨0, 0, 0⟩, moveDir := ⟨0, 0, 1⟩, moveSpeed := 0,
    capacity := 1, instanceCount := 1 }

/-- A dead ShockRing instance. -/
noncomputable def deadShockEx : ShockRingState :=
  { mkShockRing cam0 {} with alive := false }

-- ===== THEOREMS =====

/-! ### Characterization of the update scans -/

/-- The ring scan of the IcoRings manager keeps exactly the rings that are
alive after their update (in order) and releases exactly the dead ones, in
reverse order (the backward iteration pushes the highest index first). -/
theorem icoRingsAux_eq (dt : ℚ) (l : List IcoRingState) :
    icoRingsAux dt l
      = ((l.map (fun r => icoRingUpdate r dt)).filter (fun r => r.alive),
         (((l.map (fun r => icoRingUpdate r dt)).filter (fun r => !r.alive)).map
           releaseRing).reverse) := by
  induction l with
  | nil => rfl
  | cons r rest ih =>
    simp only [icoRingsAux, ih, List.map_cons, List.filter_cons]
    by_cases h : (icoRingUpdate r dt).alive
    · simp [h]
    · simp [h]

/-- Surviving plus released ring counts add up to the input count. -/
theorem icoRingsAux_length (dt : ℚ) (l : List IcoRingState) :
    (icoRingsAux dt l).1.length + (icoRingsAux dt l).2.length = l.length := by
  rw [icoRingsAux_eq]
  simp only [List.length_reverse, List.length_map]
  have h := (@List.length_eq_length_filter_add _
    (l.map (fun r => icoRingUpdate r dt)) (fun r => r.alive)).symm
  simpa [List.length_map] using h

/-- The ring scan of the ShockRing manager keeps exactly the rings that are
alive after their update, in order; dead rings are disposed. -/
theorem shockRingsAux_eq (dt : ℚ) (l : List ShockRingState) :
    shockRingsAux dt l
      = (l.map (fun r => shockRingUpdate r dt)).filter (fun r => r.alive) := by
  induction l with
  | nil => rfl
  | cons r rest ih =>
    simp only [shockRingsAux, ih, List.map_cons, List.filter_cons]

/-- The pending scan of the ShockRing manager decrements every delay by dt,
keeps exactly the requests still strictly positive (in order), and spawns
exactly the fired ones — in reverse enqueue order, because the source
iterates the array backwards. -/
theorem shockPendingAux_eq (dt : ℚ) (l : List SRPending) (m : SRMgr) :
    (shockPendingAux dt l m).1
      = (l.map (fun p => SRPending.mk (p.delay - dt) p.opts)).filter
          (fun p => !decide (p.delay ≤ 0))
    ∧ (shockPendingAux dt l m).2.rings
      = m.rings ++
          (((l.map (fun p => SRPending.mk (p.delay - dt) p.opts)).filter
            (fun p => decide (p.delay ≤ 0))).reverse.map
            (fun p => mkShockRing m.camera (mergeShockOpts m.params p.opts)))
    ∧ (shockPendingAux dt l m).2.pending = m.pending
    ∧ (shockPendingAux dt l m).2.params = m.params
    ∧ (shockPendingAux dt l m).2.camera = m.camera := by
  induction l with
  | nil => simp [shockPendingAux]
  | cons p rest ih =>
    obtain ⟨ih1, ih2, ih3, ih4, ih5⟩ := ih
    by_cases h : p.delay - dt ≤ 0
    · have hfire : shockPendingAux dt (p :: rest) m
          = ((shockPendingAux dt rest m).1,
             shockSpawn (shockPendingAux dt rest m).2 p.opts) := by
        simp only [shockPendingAux, if_pos h]
      rw [hfire]
      simp only [shockSpawn]
      refine ⟨?_, ?_, ih3, ih4, ih5⟩
      · simpa [h] using ih1
      · show (shockPendingAux dt rest m).2.rings
            ++ [mkShockRing (shockPendingAux dt rest m).2.camera
                (mergeShockOpts (shockPendingAux dt rest m).2.params p.opts)] = _
        rw [ih2, ih4, ih5]
        simp [h, List.append_assoc]
    · have hkeep : shockPendingAux dt (p :: rest) m
          = (SRPending.mk (p.delay - dt) p.opts :: (shockPendingAux dt rest m).1,
             (shockPendingAux dt rest m).2) := by
        simp only [shockPendingAux, if_neg h]
      rw [hkeep]
      refine ⟨?_, ?_, ih3, ih4, ih5⟩
      · simpa [h] using congrArg (List.cons (SRPending.mk (p.delay - dt) p.opts)) ih1
      · simpa [h] using ih2

/-! ### Helper lemmas on the easing curves -/

theorem easeOutCubic_zero : easeOutCubic 0 = 0 := by
  simp [easeOutCubic]

theorem easeOutCubic_lt {u₁ u₂ : ℝ} (h12 : u₁ < u₂) (h2 : u₂ ≤ 1) :
    easeOutCubic u₁ < easeOutCubic u₂ := by
  have hcube : (1 - u₂) ^ (3:ℕ) < (1 - u₁) ^ (3:ℕ) :=
    pow_lt_pow_left₀ (by linarith) (by linarith) (by norm_num)
  simp only [easeOutCubic]
  linarith

theorem easeOutCubic_lt_one {u : ℝ} (h : u < 1) : easeOutCubic u < 1 := by
  have : (0:ℝ) < (1 - u) ^ (3:ℕ) := pow_pos (by linarith) 3
  simp only [easeOutCubic]
  linarith

/-- The collapse-then-grow curve, first phase, at the C3 parameters
collapseAt = 3/50, collapseScale = 1/20, recoverAt = 1/5, startRadius = 1. -/
theorem ctg_phase1_eval (e g d t : ℝ) (h : t < 3/50) :
    ctgRadius 1 e g d (1/20) (3/50) (1/5) t
      = 1 - (19/20) * easeOutCubic (t / (3/50)) := by
  have htcm : min (3/50 : ℝ) (19/20) = 3/50 := min_eq_left (by norm_num)
  simp only [ctgRadius, htcm]
  rw [if_pos h]
  have hmax : max (1/100000 : ℝ) (3/50) = 3/50 := max_eq_right (by norm_num)
  rw [hmax]
  simp only [lerpR]
  ring

/-- The collapse-then-grow curve, second phase, at the C3 parameters. -/
theorem ctg_phase2_eval (e g d t : ℝ) (h1 : ¬ t < 3/50) (h2 : t < 1/5) :
    ctgRadius 1 e g d (1/20) (3/50) (1/5) t
      = 1/20 + (19/20) * easeOutCubic ((t - 3/50) / (7/50)) := by
  have htcm : min (3/50 : ℝ) (19/20) = 3/50 := min_eq_left (by norm_num)
  have htrm : max (1/5 : ℝ) (3/50 + 1/100) = 1/5 := max_eq_left (by norm_num)
  simp only [ctgRadius, htcm, htrm]
  rw [if_neg h1, if_pos h2]
  have hmax : max (1/100000 : ℝ) (1/5 - 3/50) = 7/50 := by
    rw [max_eq_right (by norm_num)]; norm_num
  rw [hmax]
  simp only [lerpR]
  ring

/-- The collapse-then-grow curve in its third phase is exactly the standard
delayed growth curve (with the original growthDelay basis over the full life
span), for any parameters. -/
theorem ctg_phase3_eq (s e g d cs tc tr t : ℝ)
    (h : max tr (min tc (19/20) + 1/100) ≤ t) :
    ctgRadius s e g d cs tc tr t = growthRadius s e g d t := by
  have htc : min tc (19/20) < max tr (min tc (19/20) + 1/100) := by
    have := le_max_right tr (min tc (19/20) + 1/100)
    linarith
  simp only [ctgRadius, growthRadius]
  rw [if_neg (by push_neg; linarith), if_neg (by push_neg; linarith)]

/-! ### C9 and C3 -/

/-- C9: the default growth-curve radius is monotonically non-decreasing in
the life fraction `t` over [0, 1] whenever the growth exponent is positive
and startRadius ≤ endRadius. -/
theorem growthRadius_monotone (s e g d t₁ t₂ : ℝ) (hg : 0 < g) (hse : s ≤ e)
    (_ht0 : 0 ≤ t₁) (ht12 : t₁ ≤ t₂) (_ht1 : t₂ ≤ 1) :
    growthRadius s e g d t₁ ≤ growthRadius s e g d t₂ := by
  have hc : (0:ℝ) < max (1/100000) (1 - d) :=
    lt_of_lt_of_le (by norm_num) (le_max_left _ _)
  have hnum : max 0 (t₁ - d) ≤ max 0 (t₂ - d) :=
    max_le_max le_rfl (by linarith)
  have hdiv : max 0 (t₁ - d) / max (1/100000) (1 - d)
      ≤ max 0 (t₂ - d) / max (1/100000) (1 - d) :=
    (div_le_div_iff_of_pos_right hc).mpr hnum
  have hb12 : clampR (max 0 (t₁ - d) / max (1/100000) (1 - d)) 0 1
      ≤ clampR (max 0 (t₂ - d) / max (1/100000) (1 - d)) 0 1 := by
    unfold clampR
    exact max_le_max le_rfl (min_le_min le_rfl hdiv)
  have hb0 : 0 ≤ clampR (max 0 (t₁ - d) / max (1/100000) (1 - d)) 0 1 :=
    le_max_left _ _
  have hpow : (clampR (max 0 (t₁ - d) / max (1/100000) (1 - d)) 0 1) ^ g
      ≤ (clampR (max 0 (t₂ - d) / max (1/100000) (1 - d)) 0 1) ^ g :=
    Real.rpow_le_rpow hb0 hb12 hg.le
  simp only [growthRadius, lerpR]
  have := mul_le_mul_of_nonneg_left hpow (by linarith : (0:ℝ) ≤ e - s)
  linarith

/-- Witness for `growthRadius_monotone` at concrete parameters. -/
theorem growthRadius_monotone_witness :
    growthRadius 0 1 1 0 (1/2) ≤ growthRadius 0 1 1 0 1 :=
  growthRadius_monotone 0 1 1 0 (1/2) 1 (by norm_num) (by norm_num)
    (by norm_num) (by norm_num) (by norm_num)

/-- C3 counterexample: the code's collapse-then-grow curve does NOT re-base
the third phase to the remaining span [recoverAt, 1].  With startRadius 1,
endRadius 4, growthExponent 2, growthDelay 1/20, collapseScale 1/20,
collapseAt 3/50, recoverAt 1/5, at t = 1/5 the code yields 388/361 ≈ 1.075
while the spec's re-based curve yields exactly 1. -/
theorem ctg_not_rebased_cx :
    ctgRadius 1 4 2 (1/20) (1/20) (3/50) (1/5) (1/5) = 388/361
    ∧ ctgRadiusSpecRebased 1 4 2 (1/20) (1/20) (3/50) (1/5) (1/5) = 1
    ∧ (388/361 : ℝ) ≠ 1 := by
  have htcm : min (3/50 : ℝ) (19/20) = 3/50 := min_eq_left (by norm_num)
  have htrm : max (1/5 : ℝ) (3/50 + 1/100) = 1/5 := max_eq_left (by norm_num)
  refine ⟨?_, ?_, by norm_num⟩
  · simp only [ctgRadius, htcm, htrm]
    rw [if_neg (by norm_num), if_neg (by norm_num)]
    have h1 : max (0:ℝ) (1/5 - 1/20) / max (1/100000) (1 - 1/20) = 3/19 := by
      rw [max_eq_right (by norm_num), max_eq_right (by norm_num)]
      norm_num
    rw [h1]
    have h2 : clampR (3/19 : ℝ) 0 1 = 3/19 := by
      unfold clampR
      rw [min_eq_right (by norm_num), max_eq_right (by norm_num)]
    rw [h2]
    have h3 : (3/19 : ℝ) ^ (2:ℝ) = 9/361 := by
      rw [show (2:ℝ) = ((2:ℕ):ℝ) by norm_num, Real.rpow_natCast]
      norm_num
    rw [h3]
    simp only [lerpR]
    norm_num
  · simp only [ctgRadiusSpecRebased, htcm, htrm]
    rw [if_neg (by norm_num), if_neg (by norm_num)]
    have h0 : ((1:ℝ)/5 - 1/5) / (1 - 1/5) = 0 := by norm_num
    rw [h0]
    simp only [growthRadius]
    have h1 : max (0:ℝ) (0 - 1/20) = 0 := max_eq_left (by norm_num)
    rw [h1]
    have h2 : (0:ℝ) / max (1/100000) (1 - 1/20) = 0 := zero_div _
    rw [h2]
    have h3 : clampR (0:ℝ) 0 1 = 0 := by
      unfold clampR
      rw [min_eq_right (by norm_num), max_eq_right le_rfl]
    rw [h3]
    have h4 : (0:ℝ) ^ (2:ℝ) = 0 := Real.zero_rpow (by norm_num)
    rw [h4]
    simp [lerpR]

/-- C3 amended: the collapse-then-grow curve follows ease-out-cubic collapse
then ease-out-cubic recovery, and for `t` at or past the effective recoverAt
it equals the standard delayed growth curve with the ORIGINAL growthDelay
basis over the full life span (not re-based to [recoverAt, 1]).  With
collapseAt = 3/50, collapseScale = 1/20, recoverAt = 1/5, startRadius = 1 and
endRadius ≥ 1: the radius at t = 3/50 is exactly 1/20 (= 0.05), the curve is
strictly decreasing on [0, 3/50] and strictly increasing on [3/50, 1/5]. -/
theorem ctg_collapse_then_grow (e g d : ℝ) (he : 1 ≤ e) :
    (∀ s' e' g' d' cs' tc' tr' t', max tr' (min tc' (19/20) + 1/100) ≤ t' →
        ctgRadius s' e' g' d' cs' tc' tr' t' = growthRadius s' e' g' d' t')
    ∧ ctgRadius 1 e g d (1/20) (3/50) (1/5) (3/50) = 1/20
    ∧ (∀ t₁ t₂, 0 ≤ t₁ → t₁ < t₂ → t₂ ≤ 3/50 →
        ctgRadius 1 e g d (1/20) (3/50) (1/5) t₂
          < ctgRadius 1 e g d (1/20) (3/50) (1/5) t₁)
    ∧ (∀ t₁ t₂, 3/50 ≤ t₁ → t₁ < t₂ → t₂ ≤ 1/5 →
        ctgRadius 1 e g d (1/20) (3/50) (1/5) t₁
          < ctgRadius 1 e g d (1/20) (3/50) (1/5) t₂) := by
  have hat : ctgRadius 1 e g d (1/20) (3/50) (1/5) (3/50) = 1/20 := by
    rw [ctg_phase2_eval e g d (3/50) (by norm_num) (by norm_num)]
    norm_num [easeOutCubic_zero]
  refine ⟨fun s' e' g' d' cs' tc' tr' t' h => ctg_phase3_eq _ _ _ _ _ _ _ _ h,
    hat, ?_, ?_⟩
  · intro t₁ t₂ h0 h12 h2
    rcases lt_or_eq_of_le h2 with h2' | h2'
    · rw [ctg_phase1_eval e g d t₁ (by linarith), ctg_phase1_eval e g d t₂ h2']
      have hu : t₁ / (3/50 : ℝ) < t₂ / (3/50) :=
        (div_lt_div_iff_of_pos_right (by norm_num)).mpr h12
      have hu1 : t₂ / (3/50 : ℝ) ≤ 1 := by
        rw [div_le_one (by norm_num)]; linarith
      have := easeOutCubic_lt hu hu1
      linarith
    · rw [h2', hat, ctg_phase1_eval e g d t₁ (by linarith)]
      have hu1 : t₁ / (3/50 : ℝ) < 1 := by
        rw [div_lt_one (by norm_num)]; linarith
      have := easeOutCubic_lt_one hu1
      linarith
  · intro t₁ t₂ h1 h12 h2
    rcases lt_or_eq_of_le h2 with h2' | h2'
    · rw [ctg_phase2_eval e g d t₁ (by push_neg; linarith) (by linarith),
        ctg_phase2_eval e g d t₂ (by push_neg; linarith) h2']
      have hv : (t₁ - 3/50) / (7/50 : ℝ) < (t₂ - 3/50) / (7/50) :=
        (div_lt_div_iff_of_pos_right (by norm_num)).mpr (by linarith)
      have hv1 : (t₂ - 3/50) / (7/50 : ℝ) ≤ 1 := by
        rw [div_le_one (by norm_num)]; linarith
      have := easeOutCubic_lt hv hv1
      linarith
    · have hlhs : ctgRadius 1 e g d (1/20) (3/50) (1/5) t₁ < 1 := by
        rw [ctg_phase2_eval e g d t₁ (by push_neg; linarith) (by linarith)]
        have hv1 : (t₁ - 3/50) / (7/50 : ℝ) < 1 := by
          rw [div_lt_one (by norm_num)]; linarith
        have := easeOutCubic_lt_one hv1
        linarith
      have hrhs : (1:ℝ) ≤ ctgRadius 1 e g d (1/20) (3/50) (1/5) t₂ := by
        rw [ctg_phase3_eq 1 e g d (1/20) (3/50) (1/5) t₂ (by
          rw [min_eq_left (by norm_num : (3/50:ℝ) ≤ 19/20),
            max_eq_left (by norm_num : (3/50:ℝ) + 1/100 ≤ 1/5)]
          linarith)]
        simp only [growthRadius, lerpR]
        have hpow : 0 ≤ (clampR (max 0 (t₂ - d) / max (1/100000) (1 - d)) 0 1) ^ g :=
          Real.rpow_nonneg (le_max_left _ _) g
        nlinarith
      linarith

/-- Witness for `ctg_collapse_then_grow`: with endRadius 4, growthExponent 2,
growthDelay 1/20, the curve value at the collapse point t = 3/50 is 1/20. -/
theorem ctg_collapse_then_grow_witness :
    ctgRadius 1 4 2 (1/20) (1/20) (3/50) (1/5) (3/50) = 1/20 :=
  (ctg_collapse_then_grow 4 2 (1/20) (by norm_num)).2.1

/-! ### C8 -/

/-- C8 counterexample: with count = 1, angleJitter = 1/4 and a random draw of
1/2, the generated angle is pi/4, so the perturbation away from the evenly
spaced position (which is 0 for i = 0) exceeds angleJitter = 1/4 radians. -/
theorem icoAngle_jitter_cx :
    icoAngle 0 1 (1/4) (1/2) = Real.pi / 4
    ∧ ¬ (icoAngle 0 1 (1/4) (1/2) - ((0:ℝ) / 1) * Real.pi * 2 ≤ 1/4) := by
  have heq : icoAngle 0 1 (1/4) (1/2) = Real.pi / 4 := by
    simp only [icoAngle, Nat.cast_zero, Nat.cast_one]
    ring
  refine ⟨heq, ?_⟩
  rw [heq]
  push_neg
  have := Real.pi_gt_three
  linarith

/-- C8 amended: the generated angle is the evenly spaced fraction i/n of a
full turn plus a perturbation of `(r * angleJitter / n) * 2 * pi` radians,
which for a random draw r in [0,1) is nonnegative and at most
`angleJitter / n * (2 * pi)` radians (the jitter is a fraction of the
inter-instance spacing, not a direct radian amount). -/
theorem icoAngle_decomp (i n : ℕ) (aj r : ℝ) (hn : 0 < n) (hr0 : 0 ≤ r)
    (hr1 : r < 1) (haj : 0 ≤ aj) :
    icoAngle i n aj r = (i:ℝ) / n * Real.pi * 2 + r * aj / n * Real.pi * 2
    ∧ 0 ≤ r * aj / n * Real.pi * 2
    ∧ r * aj / n * Real.pi * 2 ≤ aj / n * (2 * Real.pi) := by
  have hn' : (0:ℝ) < n := by exact_mod_cast hn
  refine ⟨?_, ?_, ?_⟩
  · simp only [icoAngle]
    field_simp
    ring
  · have := Real.pi_nonneg
    positivity
  · have hraj : r * aj ≤ aj := mul_le_of_le_one_left haj hr1.le
    have h1 : r * aj / n ≤ aj / n := (div_le_div_iff_of_pos_right hn').mpr hraj
    nlinarith [Real.pi_nonneg, div_nonneg (mul_nonneg hr0 haj) hn'.le]

/-- Witness for `icoAngle_decomp` at i = 1, n = 4, angleJitter = 1/4,
random draw 1/2. -/
theorem icoAngle_decomp_witness :
    icoAngle 1 4 (1/4) (1/2)
      = (1:ℝ) / 4 * Real.pi * 2 + (1/2) * (1/4) / 4 * Real.pi * 2 := by
  have h := (icoAngle_decomp 1 4 (1/4) (1/2) (by norm_num) (by norm_num)
    (by norm_num) (by norm_num)).1
  simpa using h

/-- C2: for both effect variants, with life fraction `t`, the derived fade is
exactly 1 when `t ≤ fadeStart`, exactly 0 when `t` is at or past the effective
fade end (`fadeEnd` forced to at least `fadeStart` plus a positive gap:
0.001 for the volumetric variant, 1e-5 for the swarm variant), and equals
`1 - (t - fadeStart)/(fadeEndF - fadeStart)` strictly in between. -/
theorem fade_curve_piecewise (fs fe t : ℚ) :
    (t ≤ fs → shockFade fs fe t = 1 ∧ icoFade fs fe t = 1)
    ∧ (shockFadeEndF fs fe ≤ t → shockFade fs fe t = 0)
    ∧ (icoFadeEndF fs fe ≤ t → icoFade fs fe t = 0)
    ∧ (fs < t → t < shockFadeEndF fs fe →
        shockFade fs fe t = 1 - (t - fs) / (shockFadeEndF fs fe - fs))
    ∧ (fs < t → t < icoFadeEndF fs fe →
        icoFade fs fe t = 1 - (t - fs) / (icoFadeEndF fs fe - fs)) := by
  have hgap : (0:ℚ) < 1/1000 := by norm_num
  have hfeF : fs + 1/1000 ≤ shockFadeEndF fs fe := le_max_left _ _
  have hdenomS : max (1/100000) (shockFadeEndF fs fe - fs) = shockFadeEndF fs fe - fs := by
    apply max_eq_right
    have : (1/1000 : ℚ) ≤ shockFadeEndF fs fe - fs := by linarith
    linarith
  have hdenomSpos : (0:ℚ) < shockFadeEndF fs fe - fs := by
    have : (1/1000 : ℚ) ≤ shockFadeEndF fs fe - fs := by linarith
    linarith
  have hdenomIpos : (0:ℚ) < icoFadeEndF fs fe - fs := by
    unfold icoFadeEndF
    have : (1/100000 : ℚ) ≤ max (1/100000) (fe - fs) := le_max_left _ _
    linarith
  have hdenomI : icoFadeEndF fs fe - fs = max (1/100000) (fe - fs) := by
    unfold icoFadeEndF; ring
  refine ⟨?_, ?_, ?_, ?_, ?_⟩
  · intro h
    constructor
    · simp only [shockFade, if_pos h]
      norm_num
    · have hnum : (t - fs) / max (1/100000) (fe - fs) ≤ 0 := by
        apply div_nonpos_of_nonpos_of_nonneg
        · linarith
        · have : (1/100000 : ℚ) ≤ max (1/100000) (fe - fs) := le_max_left _ _
          linarith
      simp only [icoFade, clampQ]
      have hmin : min 1 ((t - fs) / max (1/100000) (fe - fs))
          = (t - fs) / max (1/100000) (fe - fs) := by
        apply min_eq_right; linarith
      rw [hmin, max_eq_left hnum]
      ring
  · intro h
    have hnotle : ¬ t ≤ fs := by
      have := hfeF; push_neg; linarith
    simp only [shockFade]
    rw [if_neg hnotle, if_pos (by exact h)]
    norm_num
  · intro h
    have hd : (0:ℚ) < max (1/100000) (fe - fs) := hdenomI ▸ hdenomIpos
    have hub : fs + max (1/100000) (fe - fs) ≤ t := by
      unfold icoFadeEndF at h; exact h
    have hge : (1:ℚ) ≤ (t - fs) / max (1/100000) (fe - fs) := by
      rw [le_div_iff₀ hd]
      linarith
    simp only [icoFade, clampQ]
    have hmin : min 1 ((t - fs) / max (1/100000) (fe - fs)) = 1 := min_eq_left hge
    rw [hmin]
    have : max (0:ℚ) 1 = 1 := by norm_num
    rw [this]
    ring
  · intro h1 h2
    have hnotle : ¬ t ≤ fs := by push_neg; exact h1
    have hnotge : ¬ shockFadeEndF fs fe ≤ t := by push_neg; exact h2
    simp only [shockFade]
    rw [if_neg hnotle, if_neg (by exact hnotge)]
    show max 0 (min 1 (1 - (t - fs) / max (1/100000) (shockFadeEndF fs fe - fs)))
        = 1 - (t - fs) / (shockFadeEndF fs fe - fs)
    rw [hdenomS]
    have hfrac0 : 0 < (t - fs) / (shockFadeEndF fs fe - fs) :=
      div_pos (by linarith) hdenomSpos
    have hfrac1 : (t - fs) / (shockFadeEndF fs fe - fs) < 1 := by
      rw [div_lt_one hdenomSpos]; linarith
    rw [min_eq_right (by linarith), max_eq_right (by linarith)]
  · intro h1 h2
    simp only [icoFade, clampQ]
    have hd : (0:ℚ) < max (1/100000) (fe - fs) := hdenomI ▸ hdenomIpos
    have hfrac0 : 0 < (t - fs) / max (1/100000) (fe - fs) := div_pos (by linarith) hd
    have hfrac1 : (t - fs) / max (1/100000) (fe - fs) < 1 := by
      rw [div_lt_one hd]
      have : t - fs < icoFadeEndF fs fe - fs := by linarith
      rw [hdenomI] at this
      linarith
    rw [min_eq_right (by linarith), max_eq_right (by linarith), hdenomI]

/-- Witness for `fade_curve_piecewise`: at `fadeStart = 1/2`, `fadeEnd = 3/4`,
`t = 5/8` (strictly inside the window) the volumetric fade equals the claimed
linear interpolation. -/
theorem fade_curve_piecewise_witness :
    shockFade (1/2) (3/4) (5/8)
      = 1 - ((5/8 : ℚ) - 1/2) / (shockFadeEndF (1/2) (3/4) - 1/2) :=
  (fade_curve_piecewise (1/2) (3/4) (5/8)).2.2.2.1 (by norm_num)
    (by unfold shockFadeEndF; norm_num)

/-! ### Lifecycle step lemmas -/

/-- With no pending requests the pending phase of the IcoRings update is the
identity. -/
theorem icoPendingPass_nil {m : IcoMgr} (dt : ℚ) (h : m.pending = []) :
    icoPendingPass m dt = m := by
  cases m with
  | mk rg pd pl pr cm tt =>
    have h' : pd = [] := h
    subst h'
    rfl

/-- One manager update on a state holding a single alive ring and no
pending requests: the ring survives with its age advanced when it stays
under its effective lifetime, and otherwise is removed and released to the
pool in the same call. -/
theorem ico_step_alive {m : IcoMgr} {r : IcoRingState} (dt : ℚ)
    (hp : m.pending = []) (hr : m.rings = [r]) (ha : r.alive = true)
    (hL : r.udLife ≠ 0) :
    (icoMgrUpdate m dt).pending = []
    ∧ (r.age + dt < r.udLife →
        ∃ r', (icoMgrUpdate m dt).rings = [r'] ∧ r'.alive = true
          ∧ r'.age = r.age + dt ∧ r'.udLife = r.udLife
          ∧ (icoMgrUpdate m dt).pool = m.pool)
    ∧ (r.udLife ≤ r.age + dt →
        (icoMgrUpdate m dt).rings = []
          ∧ (icoMgrUpdate m dt).pool.length = m.pool.length + 1) := by
  have hpp := icoPendingPass_nil dt hp
  have hu : icoMgrUpdate m dt
      = { m with
          rings := (icoRingsAux dt m.rings).1
          pool := m.pool ++ (icoRingsAux dt m.rings).2 } := by
    unfold icoMgrUpdate
    rw [hpp]
  refine ⟨by rw [hu]; exact hp, ?_, ?_⟩
  · intro hlt
    have halive : (icoRingUpdate r dt).alive = true := by
      simp [icoRingUpdate, ha, hL, hlt.not_le]
    have hage : (icoRingUpdate r dt).age = r.age + dt := by
      simp [icoRingUpdate, ha, hL, hlt.not_le]
    have hud : (icoRingUpdate r dt).udLife = r.udLife := by
      simp [icoRingUpdate, ha, hL, hlt.not_le]
    refine ⟨icoRingUpdate r dt, ?_, halive, hage, hud, ?_⟩
    · rw [hu, hr]
      show (icoRingsAux dt [r]).1 = [icoRingUpdate r dt]
      simp [icoRingsAux, halive]
    · rw [hu, hr]
      show m.pool ++ (icoRingsAux dt [r]).2 = m.pool
      simp [icoRingsAux, halive]
  · intro hge
    have hdead : (icoRingUpdate r dt).alive = false := by
      simp [icoRingUpdate, ha, hL, hge]
    constructor
    · rw [hu, hr]
      show (icoRingsAux dt [r]).1 = []
      simp [icoRingsAux, hdead]
    · rw [hu, hr]
      show (m.pool ++ (icoRingsAux dt [r]).2).length = m.pool.length + 1
      simp [icoRingsAux, hdead]

/-- One manager update on a state with no active rings and no pending
requests changes nothing. -/
theorem ico_step_empty {m : IcoMgr} (dt : ℚ) (hp : m.pending = [])
    (hr : m.rings = []) :
    (icoMgrUpdate m dt).pending = [] ∧ (icoMgrUpdate m dt).rings = []
    ∧ (icoMgrUpdate m dt).pool = m.pool := by
  have hpp := icoPendingPass_nil dt hp
  have hu : icoMgrUpdate m dt
      = { m with
          rings := (icoRingsAux dt m.rings).1
          pool := m.pool ++ (icoRingsAux dt m.rings).2 } := by
    unfold icoMgrUpdate
    rw [hpp]
  rw [hu, hr]
  exact ⟨hp, rfl, by simp [icoRingsAux]⟩

/-- Trajectory invariant for a single ring driven by repeated manager
updates: while the accumulated time stays under the effective lifetime the
ring is the sole active instance with that age; once it reaches the
lifetime the active list is empty and the pool has grown by exactly one. -/
theorem ico_traj_aux (L : ℚ) (pool₀ : List IcoRingState) (hL : 0 < L) :
    ∀ (dts : List ℚ) (m : IcoMgr) (acc : ℚ),
      (∀ d ∈ dts, 0 ≤ d) → m.pending = [] →
      ((acc < L ∧ ∃ r', m.rings = [r'] ∧ r'.alive = true ∧ r'.age = acc
          ∧ r'.udLife = L ∧ m.pool = pool₀)
       ∨ (L ≤ acc ∧ m.rings = [] ∧ m.pool.length = pool₀.length + 1)) →
      ((icoExecUpdates m dts).pending = []
       ∧ ((acc + dts.sum < L ∧ ∃ r', (icoExecUpdates m dts).rings = [r']
             ∧ r'.alive = true ∧ r'.age = acc + dts.sum ∧ r'.udLife = L
             ∧ (icoExecUpdates m dts).pool = pool₀)
          ∨ (L ≤ acc + dts.sum ∧ (icoExecUpdates m dts).rings = []
             ∧ (icoExecUpdates m dts).pool.length = pool₀.length + 1))) := by
  intro dts
  induction dts with
  | nil =>
    intro m acc _ hp hinv
    simpa [icoExecUpdates] using ⟨hp, hinv⟩
  | cons d rest ih =>
    intro m acc hw hp hinv
    have hw' : ∀ x ∈ rest, 0 ≤ x := fun x hx => hw x (List.mem_cons_of_mem d hx)
    have hd : 0 ≤ d := hw d (List.mem_cons_self d rest)
    have hfold : icoExecUpdates m (d :: rest) = icoExecUpdates (icoMgrUpdate m d) rest := rfl
    rw [hfold, List.sum_cons, ← add_assoc]
    rcases hinv with ⟨_, r', hr, ha, hage, hLr, hpool⟩ | ⟨hge, hr, hpool⟩
    · have hstep := ico_step_alive d hp hr ha (by rw [hLr]; exact hL.ne')
      by_cases hlt : acc + d < L
      · obtain ⟨r'', hr'', ha'', hage'', hud'', hpool''⟩ :=
          hstep.2.1 (by rw [hage, hLr]; exact hlt)
        exact ih (icoMgrUpdate m d) (acc + d) hw' hstep.1
          (Or.inl ⟨hlt, r'', hr'', ha'', by rw [hage'', hage],
            by rw [hud'', hLr], by rw [hpool'']; exact hpool⟩)
      · push_neg at hlt
        obtain ⟨hr2, hp2⟩ := hstep.2.2 (by rw [hage, hLr]; exact hlt)
        exact ih (icoMgrUpdate m d) (acc + d) hw' hstep.1
          (Or.inr ⟨hlt, hr2, by rw [hp2, hpool]⟩)
    · have hstep := ico_step_empty d hp hr
      exact ih (icoMgrUpdate m d) (acc + d) hw' hstep.1
        (Or.inr ⟨by linarith, hstep.2.1, by rw [hstep.2.2]; exact hpool⟩)

/-! ### C1 -/

/-- C1 counterexample: a ShockRing with lifeSeconds 1 and fade window
[0.5, 0.8] is dead after a single update of 0.9 s, although the cumulative
delta 0.9 is strictly below lifeSeconds: the volumetric variant also dies
when its fade reaches ≤ 0.01, which happens at 80% of its life here. -/
theorem early_fade_death_cx :
    shockRingEx.lifeSeconds = 1
    ∧ (shockRingUpdate shockRingEx (9/10)).age = 9/10
    ∧ (9/10 : ℚ) < shockRingEx.lifeSeconds
    ∧ (shockRingUpdate shockRingEx (9/10)).alive = false := by
  have hlife : shockRingEx.lifeSeconds = 1 := by
    norm_num [shockRingEx, mkShockRing, max_def]
  refine ⟨hlife, ?_, by rw [hlife]; norm_num, ?_⟩
  · norm_num [shockRingUpdate, shockRingEx, mkShockRing, max_def, min_def, clampQ]
  · norm_num [shockRingUpdate, shockRingEx, mkShockRing, shockFade, clampQ,
      max_def, min_def]

/-- C1 amended: for the pooled swarm manager, every ring still on the
active list after update is alive, and the pool grows by exactly the number
of rings that died this call (each dead ring is removed and released in the
same call); a single ring with effective lifetime L is, after updates with
nonnegative deltas, still the sole active instance with age equal to the
accumulated time while that stays < L, and once the total reaches ≥ L the
active list is empty and the pool free count has grown by exactly 1.  The
volumetric manager likewise keeps only alive rings after update (dead ones
are disposed, not pooled — it has no pool), and its instances can die
before their lifetime through the fade threshold (see the
counterexample). -/
theorem dead_removed_same_tick :
    (∀ (m : IcoMgr) (dt : ℚ),
        (∀ r ∈ (icoMgrUpdate m dt).rings, r.alive = true)
        ∧ (icoMgrUpdate m dt).pool.length
            = (icoPendingPass m dt).pool.length
              + (((icoPendingPass m dt).rings.map (fun r => icoRingUpdate r dt)).filter
                  (fun r => !r.alive)).length)
    ∧ (∀ (m : SRMgr) (dt : ℚ), ∀ r ∈ (shockMgrUpdate m dt).rings, r.alive = true)
    ∧ (∀ (m : IcoMgr) (r : IcoRingState) (dts : List ℚ),
        m.pending = [] → m.rings = [r] → r.alive = true → r.age = 0 →
        0 < r.udLife → (∀ d ∈ dts, 0 ≤ d) →
        (dts.sum < r.udLife →
          ∃ r', (icoExecUpdates m dts).rings = [r'] ∧ r'.alive = true
            ∧ r'.age = dts.sum ∧ (icoExecUpdates m dts).pool = m.pool)
        ∧ (r.udLife ≤ dts.sum →
          (icoExecUpdates m dts).rings = []
            ∧ (icoExecUpdates m dts).pool.length = m.pool.length + 1)) := by
  refine ⟨?_, ?_, ?_⟩
  · intro m dt
    constructor
    · intro r hrmem
      have hproj : (icoMgrUpdate m dt).rings
          = (icoRingsAux dt (icoPendingPass m dt).rings).1 := rfl
      rw [hproj, icoRingsAux_eq] at hrmem
      exact (List.mem_filter.mp hrmem).2
    · have hproj : (icoMgrUpdate m dt).pool
          = (icoPendingPass m dt).pool
            ++ (icoRingsAux dt (icoPendingPass m dt).rings).2 := rfl
      rw [hproj, icoRingsAux_eq]
      simp [List.length_append, List.length_reverse, List.length_map]
  · intro m dt r hmem
    have hproj : (shockMgrUpdate m dt).rings
        = shockRingsAux dt (shockPendingAux dt m.pending m).2.rings := rfl
    rw [hproj, shockRingsAux_eq] at hmem
    exact (List.mem_filter.mp hmem).2
  · intro m r dts hp hr ha hage hL hw
    have h := ico_traj_aux r.udLife m.pool hL dts m 0 hw hp
      (Or.inl ⟨hL, r, hr, ha, hage, rfl, rfl⟩)
    rw [zero_add] at h
    constructor
    · intro hlt
      rcases h.2 with ⟨_, r', h1, h2, h3, _, h5⟩ | ⟨hge, _, _⟩
      · exact ⟨r', h1, h2, h3, h5⟩
      · exact absurd hlt (not_lt.mpr hge)
    · intro hge
      rcases h.2 with ⟨hlt, _⟩ | ⟨_, hres1, hres2⟩
      · exact absurd hge (not_le.mpr hlt)
      · exact ⟨hres1, hres2⟩

/-- Witness for `dead_removed_same_tick`: the single-ring manager `icoMgrW`
(ring lifetime 1), after updates of 0.6 s and 0.6 s (total 1.2 ≥ 1), has an
empty active list and one more pooled instance. -/
theorem dead_removed_same_tick_witness :
    (icoExecUpdates icoMgrW [3/5, 3/5]).rings = []
    ∧ (icoExecUpdates icoMgrW [3/5, 3/5]).pool.length = icoMgrW.pool.length + 1 := by
  have hud : icoRingW.udLife = 1 := by
    norm_num [icoRingW, mkIcoRing, max_def]
  have h := (dead_removed_same_tick).2.2 icoMgrW icoRingW [3/5, 3/5]
    rfl rfl rfl rfl (by rw [hud]; norm_num)
    (by intro d hd; simp only [List.mem_cons, List.not_mem_nil, or_false] at hd
        rcases hd with h1 | h1 <;> rw [h1] <;> norm_num)
  exact h.2 (by rw [hud]; norm_num [List.sum_cons])

/-! ### C5 -/

/-- C5 counterexample: two pending requests enqueued in order (lifeSeconds
1 first, lifeSeconds 2 second), both firing in the same update, are spawned
newest-first — the resulting active list order is [2, 1], not the FIFO
order [1, 2]. -/
theorem pending_fifo_cx :
    ((shockMgrUpdate srMgrEx (1/10)).rings.map (fun r => r.lifeSeconds)) = [2, 1]
    ∧ [(2:ℚ), 1] ≠ [1, 2] := by
  constructor
  · norm_num [shockMgrUpdate, shockPendingAux, shockSpawn, shockRingsAux,
      shockRingUpdate, mkShockRing, mergeShockOpts, shockFade, clampQ,
      srMgrEx, max_def, min_def]
  · norm_num

/-- C5 amended: during update(dt) every pending request's delay is
decremented by dt; requests whose delay thereby reaches ≤ 0 are dequeued
and spawned exactly once (the rest are kept in order); but same-tick firing
happens in REVERSE enqueue order (newest first), because the source scans
the pending array backwards.  The spawned rings join the active list before
the same call's aging pass. -/
theorem pending_fire_newest_first (m : SRMgr) (dt : ℚ) :
    (shockMgrUpdate m dt).pending
      = (m.pending.map (fun p => SRPending.mk (p.delay - dt) p.opts)).filter
          (fun p => !decide (p.delay ≤ 0))
    ∧ (shockMgrUpdate m dt).rings
      = shockRingsAux dt (m.rings ++
          (((m.pending.map (fun p => SRPending.mk (p.delay - dt) p.opts)).filter
            (fun p => decide (p.delay ≤ 0))).reverse.map
            (fun p => mkShockRing m.camera (mergeShockOpts m.params p.opts)))) := by
  obtain ⟨h1, h2, _, _, _⟩ := shockPendingAux_eq dt m.pending m
  constructor
  · show (shockPendingAux dt m.pending m).1 = _
    exact h1
  · show shockRingsAux dt (shockPendingAux dt m.pending m).2.rings = _
    rw [h2]

/-! ### C10 -/

/-- C10: update on a dead instance is a no-op for both variants: every
field of the state — age, world position, visibility, the per-object
uniform data, and the derived radius and fade uniforms — is unchanged, and
the instance remains dead. -/
theorem dead_update_noop (si : IcoRingState) (ss : ShockRingState) (dt₁ dt₂ : ℚ)
    (hi : si.alive = false) (hs : ss.alive = false) :
    icoRingUpdate si dt₁ = si ∧ shockRingUpdate ss dt₂ = ss := by
  constructor
  · simp [icoRingUpdate, hi]
  · simp [shockRingUpdate, hs]

/-- Witness for `dead_update_noop` on concrete dead instances. -/
theorem dead_update_noop_witness :
    icoRingUpdate deadIcoEx 1 = deadIcoEx ∧ shockRingUpdate deadShockEx 1 = deadShockEx :=
  dead_update_noop deadIcoEx deadShockEx 1 1 rfl rfl

/-! ### C7 -/

/-- C7: restart clamps the requested sub-instance count to the fixed buffer
capacity (after flooring and forcing at least 1), never exceeding it and
never changing the capacity itself (the buffer is not reallocated); in
particular restarting a capacity-80 instance with a request of 130 yields
80 active sub-instances, not 130. -/
theorem restart_count_clamped (r : IcoRingState) (cam : Camera) (o : IcoRingOptions) :
    (icoRestart r cam o).capacity = r.capacity
    ∧ (icoRestart r cam o).instanceCount
        = min r.capacity (max 1 (o.count.getD r.instanceCount))
    ∧ (icoRestart r cam o).instanceCount ≤ r.capacity
    ∧ (icoRestart (mkIcoRing cam { count := some 80 }) cam
        { count := some 130 }).capacity = 80
    ∧ (icoRestart (mkIcoRing cam { count := some 80 }) cam
        { count := some 130 }).instanceCount = 80 := by
  refine ⟨rfl, rfl, min_le_left _ _, ?_, ?_⟩
  · show max 1 ((some 80).getD 80) = 80
    simp
  · show min (max 1 ((some 80).getD 80)) (max 1 ((some 130).getD _)) = 80
    simp

/-! ### C6 -/

/-- C6 (spec-modelled clearAll): after clearAll the active list is empty,
the pool has grown by the old active count, every previously active
instance is in the pool in its killed form, and the killed form is dead and
hidden. -/
theorem clearAll_forces_dead_pooled (m : IcoMgr) :
    (icoClearAll m).rings = []
    ∧ (icoClearAll m).pool.length = m.pool.length + m.rings.length
    ∧ (∀ r ∈ m.rings, killIcoRing r ∈ (icoClearAll m).pool)
    ∧ (∀ r ∈ m.rings, (killIcoRing r).alive = false ∧ (killIcoRing r).visible = false) := by
  refine ⟨rfl, ?_, ?_, ?_⟩
  · show (m.pool ++ (m.rings.map killIcoRing).reverse).length = _
    simp [List.length_append, List.length_reverse, List.length_map]
  · intro r hr
    show killIcoRing r ∈ m.pool ++ (m.rings.map killIcoRing).reverse
    apply List.mem_append_right
    rw [List.mem_reverse]
    exact List.mem_map_of_mem killIcoRing hr
  · intro r _
    exact ⟨rfl, rfl⟩

/-- Witness for `clearAll_forces_dead_pooled`: the single active ring of
`icoMgrW` is in the pool after clearAll. -/
theorem clearAll_forces_dead_pooled_witness :
    killIcoRing icoRingW ∈ (icoClearAll icoMgrW).pool :=
  (clearAll_forces_dead_pooled icoMgrW).2.2.1 icoRingW (by simp [icoMgrW])

/-! ### C4: pool accounting and active-count cap -/

/-- spawn preserves the pool accounting invariant: either it pops a pooled
ring (free −1, active +1) or it constructs a fresh one (total +1,
active +1). -/
theorem icoSpawn_inv (m : IcoMgr) (o : IcoRingOptions)
    (h : m.pool.length + m.rings.length = m.total) :
    (icoSpawn m o).pool.length + (icoSpawn m o).rings.length = (icoSpawn m o).total := by
  unfold icoSpawn icoAcquire
  cases hq : m.pool.getLast? with
  | some r =>
    have hne : m.pool ≠ [] := by
      intro hnil; rw [hnil] at hq; simp at hq
    have hlen : 0 < m.pool.length := List.length_pos.mpr hne
    simp only [hq, List.length_append, List.length_dropLast, List.length_cons,
      List.length_nil]
    omega
  | none =>
    simp only [hq, List.length_append, List.length_cons, List.length_nil]
    omega

/-- spawn grows the active list by exactly one ring. -/
theorem icoSpawn_rings_length (m : IcoMgr) (o : IcoRingOptions) :
    (icoSpawn m o).rings.length = m.rings.length + 1 := by
  unfold icoSpawn icoAcquire
  cases hq : m.pool.getLast? <;>
    simp [hq, List.length_append]

/-- The pending scan preserves the pool accounting invariant. -/
theorem icoPendingAux_inv (dt : ℚ) :
    ∀ (l : List IcoPending) (m : IcoMgr),
      m.pool.length + m.rings.length = m.total →
      (icoPendingAux dt l m).2.pool.length + (icoPendingAux dt l m).2.rings.length
        = (icoPendingAux dt l m).2.total := by
  intro l
  induction l with
  | nil => intro m h; exact h
  | cons p rest ih =>
    intro m h
    simp only [icoPendingAux]
    by_cases hd : p.delay - dt ≤ 0
    · simp only [if_pos hd]
      exact icoSpawn_inv _ _ (ih m h)
    · simp only [if_neg hd]
      exact ih m h

/-- update preserves the pool accounting invariant: every ring removed from
the active list is pushed to the pool. -/
theorem icoMgrUpdate_inv (m : IcoMgr) (dt : ℚ)
    (h : m.pool.length + m.rings.length = m.total) :
    (icoMgrUpdate m dt).pool.length + (icoMgrUpdate m dt).rings.length
      = (icoMgrUpdate m dt).total := by
  have h1 := icoPendingAux_inv dt m.pending m h
  have h2 := icoRingsAux_length dt (icoPendingAux dt m.pending m).2.rings
  show ((icoPendingAux dt m.pending m).2.pool
        ++ (icoRingsAux dt (icoPendingAux dt m.pending m).2.rings).2).length
      + (icoRingsAux dt (icoPendingAux dt m.pending m).2.rings).1.length
      = (icoPendingAux dt m.pending m).2.total
  rw [List.length_append]
  omega

/-- Every manager operation preserves the pool accounting invariant. -/
theorem icoExec_inv (m : IcoMgr) (op : IcoOp)
    (h : m.pool.length + m.rings.length = m.total) :
    (icoExec m op).pool.length + (icoExec m op).rings.length = (icoExec m op).total := by
  cases op with
  | spawn o => exact icoSpawn_inv m o h
  | spawnAfter d o => exact h
  | update dt => exact icoMgrUpdate_inv m dt h

/-- Operation sequences preserve the pool accounting invariant. -/
theorem icoExecList_inv :
    ∀ (ops : List IcoOp) (m : IcoMgr),
      m.pool.length + m.rings.length = m.total →
      (icoExecList m ops).pool.length + (icoExecList m ops).rings.length
        = (icoExecList m ops).total := by
  intro ops
  induction ops with
  | nil => intro m h; exact h
  | cons op rest ih => intro m h; exact ih (icoExec m op) (icoExec_inv m op h)

/-- The manager starts with 6 constructed rings: 5 pooled and 1 active. -/
theorem icoMgrInit_inv (cam : Camera) :
    (icoMgrInit cam).pool.length + (icoMgrInit cam).rings.length
      = (icoMgrInit cam).total := rfl

/-- The capped spawn keeps the active count within the bound: at the bound
it drops the oldest active effect before spawning. -/
theorem cappedSpawn_cap {m : CappedMgr} (o : IcoRingOptions)
    (h1 : m.base.rings.length ≤ m.maxRings) (h2 : 1 ≤ m.maxRings) :
    (cappedSpawn m o).base.rings.length ≤ (cappedSpawn m o).maxRings
    ∧ (cappedSpawn m o).maxRings = m.maxRings := by
  unfold cappedSpawn
  by_cases hc : m.maxRings ≤ m.base.rings.length
  · simp only [if_pos hc]
    cases hr : m.base.rings with
    | nil =>
      exfalso
      rw [hr] at hc
      simp at hc
      omega
    | cons r rest =>
      refine ⟨?_, trivial⟩
      rw [icoSpawn_rings_length]
      have hlen : rest.length + 1 = m.base.rings.length := by
        rw [hr]; rfl
      show rest.length + 1 ≤ m.maxRings
      omega
  · simp only [if_neg hc]
    refine ⟨?_, trivial⟩
    rw [icoSpawn_rings_length]
    omega

/-- The capped pending scan keeps the active count within the bound. -/
theorem cappedPendingAux_cap (dt : ℚ) :
    ∀ (l : List IcoPending) (m : CappedMgr),
      m.base.rings.length ≤ m.maxRings → 1 ≤ m.maxRings →
      (cappedPendingAux dt l m).2.base.rings.length ≤ (cappedPendingAux dt l m).2.maxRings
      ∧ (cappedPendingAux dt l m).2.maxRings = m.maxRings := by
  intro l
  induction l with
  | nil => intro m h1 h2; exact ⟨h1, rfl⟩
  | cons p rest ih =>
    intro m h1 h2
    simp only [cappedPendingAux]
    by_cases hd : p.delay - dt ≤ 0
    · simp only [if_pos hd]
      obtain ⟨ih1, ih2⟩ := ih m h1 h2
      obtain ⟨s1, s2⟩ := cappedSpawn_cap p.opts ih1 (ih2 ▸ h2)
      exact ⟨s1, by rw [s2, ih2]⟩
    · simp only [if_neg hd]
      exact ih m h1 h2

/-- Every capped-manager operation keeps the active count within the bound
and the bound at least 1. -/
theorem cappedExec_cap (m : CappedMgr) (op : CappedOp)
    (h1 : m.base.rings.length ≤ m.maxRings) (h2 : 1 ≤ m.maxRings) :
    (cappedExec m op).base.rings.length ≤ (cappedExec m op).maxRings
    ∧ 1 ≤ (cappedExec m op).maxRings := by
  cases op with
  | spawn o =>
    obtain ⟨s1, s2⟩ := cappedSpawn_cap o h1 h2
    exact ⟨s1, s2 ▸ h2⟩
  | spawnAfter d o => exact ⟨h1, h2⟩
  | update dt =>
    obtain ⟨p1, p2⟩ := cappedPendingAux_cap dt m.base.pending m h1 h2
    have hlen := icoRingsAux_length dt (cappedPendingAux dt m.base.pending m).2.base.rings
    constructor
    · show (icoRingsAux dt (cappedPendingAux dt m.base.pending m).2.base.rings).1.length
          ≤ (cappedPendingAux dt m.base.pending m).2.maxRings
      omega
    · show 1 ≤ (cappedPendingAux dt m.base.pending m).2.maxRings
      omega
  | setMaxRings n =>
    constructor
    · show (m.base.rings.drop (m.base.rings.length - max 1 n)).length ≤ max 1 n
      rw [List.length_drop]
      omega
    · exact le_max_left _ _
  | clearAll =>
    refine ⟨?_, h2⟩
    show ([] : List IcoRingState).length ≤ m.maxRings
    simp

/-- Capped-manager operation sequences keep the active count within the
bound. -/
theorem cappedExecList_cap :
    ∀ (cops : List CappedOp) (m : CappedMgr),
      m.base.rings.length ≤ m.maxRings → 1 ≤ m.maxRings →
      (cappedExecList m cops).base.rings.length ≤ (cappedExecList m cops).maxRings
      ∧ 1 ≤ (cappedExecList m cops).maxRings := by
  intro cops
  induction cops with
  | nil => intro m h1 h2; exact ⟨h1, h2⟩
  | cons op rest ih =>
    intro m h1 h2
    obtain ⟨e1, e2⟩ := cappedExec_cap m op h1 h2
    exact ih (cappedExec m op) e1 e2

/-- C4: after any sequence of spawn, spawnAfter and update calls from
startup, the pool's free count plus the active count equals the total
number of rings ever constructed; and on the manager extended with the
spec-modelled `setMaxRings` (absent from the sources, bound in main.ts),
the active count never exceeds the configured maximum after any operation
sequence — a spawn at the limit drops the oldest active effect. -/
theorem pool_accounting_and_cap (cam : Camera) (ops : List IcoOp)
    (cops : List CappedOp) :
    ((icoExecList (icoMgrInit cam) ops).pool.length
        + (icoExecList (icoMgrInit cam) ops).rings.length
      = (icoExecList (icoMgrInit cam) ops).total)
    ∧ (cappedExecList (cappedInit cam) cops).base.rings.length
        ≤ (cappedExecList (cappedInit cam) cops).maxRings := by
  constructor
  · exact icoExecList_inv ops (icoMgrInit cam) (icoMgrInit_inv cam)
  · refine (cappedExecList_cap cops (cappedInit cam) ?_ ?_).1
    · show (1:ℕ) ≤ 100
      norm_num
    · show (1:ℕ) ≤ 100
      norm_num

end ThreeBoiler
